import Mathlib

/-!
Verification of the Synchrome repository: a driver for a remotely debuggable
browser. The development shallowly embeds the two source modules:

* the per-target connection object (class `Page` in the unnamed source file):
  request/response correlation over a JSON frame stream (`_onMessage`, `send`),
  event subscription (`listen`, `wait` via a Node-style event emitter),
  and the convenience operations `exec`, `waitFor`, `navigate`;
* the browser supervisor (`src/Browser.js`): the memoizing target registry
  (`get`) and default-target selection in `_initialize`.

JSON values are modelled by an inductive `Json`; machine-level payloads the
code never inspects are carried verbatim.  Stateful objects are modelled by
explicit state passing; promise resolution/rejection is modelled by `Except`
and by explicit effect lists.
-/

set_option autoImplicit false

/-- A JSON value, as produced by `JSON.parse` on an inbound text frame. -/
inductive Json where
  | null
  | bool (b : Bool)
  | num (n : Int)
  | str (s : String)
  | arr (xs : List Json)
  | obj (fields : List (String × Json))

/-- The `error` descriptor of an inbound failure frame: `{code, message}`
(interface section 6 of the protocol). `_onMessage` reads `.code` and
`.message` for diagnostics and passes the descriptor to `reject` verbatim. -/
structure ErrorObj where
  code : Int
  message : String
deriving DecidableEq, Repr

/-- A parsed inbound frame, restricted to the well-typed object frames of
the protocol interface (a JSON object whose `id` is a number and whose
`error`, when present, is a `{code, message}` object).  Each field models
the presence test (`'id' in json`, `'error' in json`, `'method' in json`)
together with the field value; `none` means the key is absent (JavaScript
`undefined`).  The receive path over the full codomain of `JSON.parse` —
including top-level non-objects and `null`-valued `error` fields, on which
the code itself throws — is modelled separately by `RawInbound` and
`onRawMessage` below. -/
structure Frame where
  id? : Option Nat
  result? : Option Json
  error? : Option ErrorObj
  method? : Option String
  params? : Option Json

/-- An inbound text message on the socket, restricted to the well-typed
shapes the correlation and dispatch claims quantify over: either it parses
as a well-typed object frame (`frame`) or `JSON.parse` throws
(`unparseable`).  See `RawInbound` for the unrestricted receive domain. -/
inductive Inbound where
  | unparseable
  | frame (j : Frame)

/-- Observable effects performed by the receive path `_onMessage`:
resolving or rejecting the pending callback registered under a request id
(identified here by a caller-chosen callback label), emitting an event on
the connection event emitter, and the two console diagnostics. -/
inductive Effect where
  | resolve (cid : Nat) (v : Option Json)
  | reject (cid : Nat) (e : ErrorObj)
  | emit (method : String) (params : Option Json)
  | logError (code : Int) (message : String)
  | warn

/-- Association-list lookup mirroring `Map.prototype.get` / `has`
(first match; the maps in the source never hold duplicate keys). -/
def mfind? {κ ν : Type} [DecidableEq κ] : List (κ × ν) → κ → Option ν
  | [], _ => none
  | (k, v) :: rest, a => if k = a then some v else mfind? rest a

/-- Association-list deletion mirroring `Map.prototype.delete`. -/
def merase {κ ν : Type} [DecidableEq κ] : List (κ × ν) → κ → List (κ × ν)
  | [], _ => []
  | (k, v) :: rest, a => if k = a then rest else (k, v) :: merase rest a

/-- Association-list update mirroring `Map.prototype.set`
(replace the existing entry for the key, else append). -/
def mset {κ ν : Type} [DecidableEq κ] : List (κ × ν) → κ → ν → List (κ × ν)
  | [], a, b => [(a, b)]
  | (k, v) :: rest, a, b => if k = a then (a, b) :: rest else (k, v) :: mset rest a b

namespace Page

/-- The correlation state of one connection: `_packetCounter` (starts at 0,
pre-incremented by `send`) and `_packetCallbacks`, mapping each in-flight
request id to the pending callback registered for it. -/
structure ConnState where
  packetCounter : Nat
  packetCallbacks : List (Nat × Nat)
deriving DecidableEq, Repr

/-- The state of a fresh connection (`_connect` clears the callback map). -/
def ConnState.init : ConnState := ⟨0, []⟩

/-- `Page.send(method, params)`: pre-increment the packet counter, register
the pending callback under the new id, and transmit `{id, method, params}`.
Returns the successor state and the allocated request id.  The callback is
identified by the caller-chosen label `cid`. -/
def send (s : ConnState) (cid : Nat) : ConnState × Nat :=
  let newCounter := s.packetCounter + 1
  (⟨newCounter, mset s.packetCallbacks newCounter cid⟩, newCounter)

/-- Issue a sequence of `send` calls; returns the final state and the list
of (callback label, allocated request id) pairs in issue order. -/
def sendAll (s : ConnState) : List Nat → ConnState × List (Nat × Nat)
  | [] => (s, [])
  | c :: cs =>
    let (s', i) := send s c
    let (s'', rest) := sendAll s' cs
    (s'', (c, i) :: rest)

/-- `Page._onMessage(message)`: `JSON.parse` the frame (throwing on
unparseable input, modelled by `Except.error`); if it carries an `id` with a
registered pending callback, reject with the `error` descriptor when present
(after logging it) else resolve with the `result`, then delete the entry;
otherwise, if it carries a `method`, emit the event with its `params`;
otherwise warn about the unrecognized packet. -/
def onMessage (s : ConnState) (m : Inbound) : Except Unit (ConnState × List Effect) :=
  match m with
  | .unparseable => .error ()
  | .frame j =>
    match j.id?.bind (mfind? s.packetCallbacks) with
    | some cid =>
      let i := j.id?.getD 0
      let effs := match j.error? with
        | some e => [Effect.logError e.code e.message, Effect.reject cid e]
        | none => [Effect.resolve cid j.result?]
      .ok (⟨s.packetCounter, merase s.packetCallbacks i⟩, effs)
    | none =>
      match j.method? with
      | some name => .ok (s, [Effect.emit name j.params?])
      | none => .ok (s, [Effect.warn])

/-- Process a list of inbound socket messages in arrival order.  A message
whose handling throws (unparseable input) leaves the state unchanged and
produces no effects: the exception escapes that message handler only. -/
def processAll (s : ConnState) : List Inbound → ConnState × List Effect
  | [] => (s, [])
  | m :: rest =>
    match onMessage s m with
    | .error _ => processAll s rest
    | .ok (s', effs) =>
      let (s'', effs') := processAll s' rest
      (s'', effs ++ effs')

/-- The outcome delivered to a pending request: promise resolution with the
frame result, or rejection with the frame error descriptor. -/
inductive Payload where
  | ok (v : Option Json)
  | err (e : ErrorObj)

/-- The response frame carrying request id `i` and outcome `p`. -/
def respFrame (i : Nat) (p : Payload) : Frame :=
  match p with
  | .ok v => ⟨some i, v, none, none, none⟩
  | .err e => ⟨some i, none, some e, none, none⟩

/-- A response arrival for request id `i` with outcome `p`. -/
def respInbound (ip : Nat × Payload) : Inbound := .frame (respFrame ip.1 ip.2)

/-- Extract from an effect list the request outcomes it delivers: which
callback was resolved or rejected, and with what, in delivery order. -/
def outcomes : List Effect → List (Nat × Payload)
  | [] => []
  | .resolve c v :: es => (c, .ok v) :: outcomes es
  | .reject c e :: es => (c, .err e) :: outcomes es
  | .emit _ _ :: es => outcomes es
  | .logError _ _ :: es => outcomes es
  | .warn :: es => outcomes es

/-- A registered event listener: its identity label and whether it is a
one-shot (`once`) registration, as installed by `wait`. -/
structure Listener where
  lid : Nat
  once : Bool
deriving DecidableEq, Repr

/-- A Node-style event emitter: the registered `(eventName, listener)` pairs
in registration order. -/
structure Emitter where
  listeners : List (String × Listener)
deriving DecidableEq, Repr

/-- `Page.listen(method, fn)`: `eventEmitter.addListener` — a durable
registration appended for `method`. -/
def listen (em : Emitter) (method : String) (lid : Nat) : Emitter :=
  ⟨em.listeners ++ [(method, ⟨lid, false⟩)]⟩

/-- `Page.wait(method)`: `eventEmitter.once` — a one-shot registration
appended for `method`, whose resolution delivers the event params. -/
def wait (em : Emitter) (method : String) (lid : Nat) : Emitter :=
  ⟨em.listeners ++ [(method, ⟨lid, true⟩)]⟩

/-- `eventEmitter.emit(method, params)`: every listener registered for
`method` fires, in registration order, each receiving the event params;
one-shot listeners are removed by this delivery.  Returns the emitter after
removal and the fired listeners in firing order. -/
def emitEvent (em : Emitter) (method : String) : Emitter × List Listener :=
  (⟨em.listeners.filter (fun p => !(p.1 == method && p.2.once))⟩,
   (em.listeners.filter (fun p => p.1 == method)).map Prod.snd)

/-- The evaluated `RemoteObject` of a `Runtime.evaluate` response; with
`returnByValue` its `value` field carries the value (`execSync` reads
`data.result.value`). -/
structure RemoteObject where
  value : Json

/-- The `result` payload of a `Runtime.evaluate` response frame. -/
structure EvalResult where
  result : RemoteObject
  exceptionDetails : Option Json

/-- The request `Page.exec(script, options)` issues: method
`Runtime.evaluate` with the stringified script, `userGesture: true`,
`returnByValue: true`, and `awaitPromise: options.promise === true`. -/
def execRequest (script : String) (optionsPromise : Option Bool) : String × List (String × Json) :=
  ("Runtime.evaluate",
    [("expression", Json.str script),
     ("userGesture", Json.bool true),
     ("returnByValue", Json.bool true),
     ("awaitPromise", Json.bool (optionsPromise == some true))])

/-- The continuation `Page.exec` applies to the evaluate response: reject
with `result.exceptionDetails` verbatim when present, else resolve with the
evaluation response. -/
def execResolve (result : EvalResult) : Except Json EvalResult :=
  match result.exceptionDetails with
  | some details => .error details
  | none => .ok result

/-- JavaScript truthiness of an evaluated value, as tested by
`if (result)` in `waitFor`. -/
def truthy : Json → Bool
  | .null => false
  | .bool b => b
  | .num n => n != 0
  | .str s => s != ""
  | .arr _ => true
  | .obj _ => true

/-- The outcome of a `Page.waitFor` call: resolution with the first truthy
evaluated value, rejection with the timeout message, or rejection with an
evaluation failure caught by `.catch(reject)`. -/
inductive WaitOutcome where
  | resolved (v : Json)
  | timedOut (msg : String)
  | failed (e : Json)

/-- The retry loop of `Page.waitFor`: attempt `k` performs one full
`execSync` round trip (`evals k`); an evaluation failure rejects
immediately; a truthy value resolves; otherwise, if the remaining `passes`
budget is exhausted (`passes <= 0`), reject with the timeout message, else
schedule the next attempt and decrement `passes`.  Returns the outcome and
the number of evaluation attempts performed. -/
def waitForAux (evals : Nat → Except Json Json) (timeoutMs : Int) :
    Nat → Int → WaitOutcome × Nat
  | k, passes =>
    match evals k with
    | .error e => (.failed e, k + 1)
    | .ok v =>
      if truthy v then (.resolved v, k + 1)
      else if passes ≤ 0 then
        (.timedOut ("Timeout of " ++ toString timeoutMs ++ "ms exceeded"), k + 1)
      else waitForAux evals timeoutMs (k + 1) (passes - 1)
termination_by _k passes => passes.toNat
decreasing_by omega

/-- `Page.waitFor(expression, timeout, ...params)`: initializes the attempt
budget to `timeout / 10` and runs the retry loop (modelled for timeouts
divisible by 10, where JavaScript real division agrees with `Int`
division). -/
def waitFor (evals : Nat → Except Json Json) (timeoutMs : Int) : WaitOutcome × Nat :=
  waitForAux evals timeoutMs 0 (timeoutMs / 10)

/-- The instance properties ever assigned on a `Page` object (all in the
constructor and `_connect`); `_page` is not among them, so reading
`this._page` yields `undefined`. -/
def pageInstanceFields : List String :=
  ["_id", "_server", "_browser", "_packetCounter", "_packetCallbacks",
   "_eventEmitter", "_socket"]

/-- A step `Page.navigate` would take on the connection. -/
inductive NavStep where
  | sendCall (method : String) (params : List (String × Json))
  | waitCall (method : String)

/-- `Page.navigate(url, waitForLoad)` as written: it evaluates
`this._page.send(...)`. Since `_page` is never assigned on `Page`, the
member access throws a `TypeError`; the intended steps (a `Page.navigate`
send, then, when `waitForLoad === true`, a one-shot wait for
`Page.loadEventFired`) are produced only if `_page` were a field. -/
def navigate (url : String) (waitForLoad : Bool) : Except String (List NavStep) :=
  if pageInstanceFields.contains "_page" then
    .ok (NavStep.sendCall "Page.navigate" [("url", Json.str url)] ::
      (if waitForLoad then [NavStep.waitCall "Page.loadEventFired"] else []))
  else
    .error "TypeError: Cannot read property send of undefined"

end Page

namespace Browser

/-- A target descriptor from the discovery endpoint
(`GET http://localhost:<port>/json`). -/
structure TargetDescriptor where
  id : String
  title : String
  type : String
  url : String
  webSocketDebuggerUrl : String
deriving DecidableEq, Repr

/-- The browser target registry: `_sockets` maps target id to the cached
`Page` instance, and `nextPage` is the allocator for fresh `Page` object
identities (`new Page(...)` yields a new, distinct object). -/
structure BState where
  sockets : List (String × Nat)
  nextPage : Nat
deriving DecidableEq, Repr

/-- The registry of a fresh `Browser` (`_sockets = new Map()`). -/
def BState.init : BState := ⟨[], 0⟩

/-- `Browser.get(target)`: return the cached `Page` for `target.id` when
present, else construct a new one; in both cases `set` the map entry for
`target.id` and return the page. -/
def get (b : BState) (target : TargetDescriptor) : BState × Nat :=
  match mfind? b.sockets target.id with
  | some page => (⟨mset b.sockets target.id page, b.nextPage⟩, page)
  | none =>
    let page := b.nextPage
    (⟨mset b.sockets target.id page, b.nextPage + 1⟩, page)

/-- The sentinel blank-page URL the supervisor launches the browser with. -/
def defaultPageUrl : String := "about:blank#default-page"

/-- The descriptor `Browser._initialize` designates as the default target:
`pages.find(page => page.url === 'about:blank#default-page') || pages[0]`
(a found descriptor object is truthy; `find` yields `undefined`, which is
falsy, when no url matches). -/
def defaultDescriptor (pages : List TargetDescriptor) : Option TargetDescriptor :=
  match pages.find? (fun p => p.url == defaultPageUrl) with
  | some p => some p
  | none => pages.head?

end Browser

/-- A raw inbound text message: either `JSON.parse` throws on it
(`unparseable`), or it yields some JSON value — not necessarily an object.
`Inbound`/`Frame` above are the restriction of this to well-typed object
frames; `onRawMessage` below is the receive path over this full domain. -/
inductive RawInbound where
  | unparseable
  | parsed (j : Json)

/-- The JavaScript exception classes the receive path can throw:
`SyntaxError` from `JSON.parse` on unparseable text; `TypeError` from
`'id' in json` when the parsed value is a top-level primitive (null,
boolean, number or string); and `TypeError` from reading
`json.error.code` when the frame's `error` field holds `null`. -/
inductive Page.Thrown where
  | parseSyntaxError
  | inOperatorTypeError
  | errorFieldTypeError
deriving DecidableEq, Repr

/-- Observable effects of the raw receive path: `reject` and `emit` carry
raw JSON values, since the code passes `json.error` / `json.method`
through verbatim without shape checks. -/
inductive Page.REffect where
  | resolve (cid : Nat) (v : Option Json)
  | reject (cid : Nat) (e : Json)
  | emit (method : Json) (params : Option Json)
  | logError (e : Json)
  | warn

/-- Field lookup in a parsed JSON object: `JSON.parse` keeps the last
occurrence of a duplicated key, hence the first match in the reversed
field list. -/
def Page.jget (fields : List (String × Json)) (k : String) : Option Json :=
  mfind? fields.reverse k

/-- The pending-map key a frame's `id` value can match: `Map.has` compares
by value, and the keys allocated by `send` are positive integers, so only
a non-negative integer `id` can match anything. -/
def Page.jsonKey? : Json → Option Nat
  | .num n => if 0 ≤ n then some n.toNat else none
  | _ => none

/-- `'id' in json && this._packetCallbacks.has(json.id)` on an object
frame: the matched `(key, callback)` pair, if any. -/
def Page.matchedCallback (s : Page.ConnState) (fields : List (String × Json)) :
    Option (Nat × Nat) :=
  match (Page.jget fields "id").bind Page.jsonKey? with
  | none => none
  | some key => (mfind? s.packetCallbacks key).map (fun cid => (key, cid))

/-- Whether an optional JSON value is present and `null`. -/
def Page.isNull : Option Json → Bool
  | some Json.null => true
  | _ => false

/-- `Page._onMessage(message)` over the full codomain of `JSON.parse`:
unparseable text throws a `SyntaxError`; a top-level primitive value makes
`'id' in json` throw a `TypeError`; an array has neither an `id` nor a
`method` property, so it is warned; an object frame whose `id` matches a
pending callback rejects with `json.error` after logging
`json.error.code`/`.message` — which itself throws a `TypeError` when
`json.error` is `null` — or resolves with `json.result`, deleting the
entry; otherwise a present `method` field is emitted with `params`, and
otherwise the packet is warned. -/
def Page.onRawMessage (s : Page.ConnState) (m : RawInbound) :
    Except Page.Thrown (Page.ConnState × List Page.REffect) :=
  match m with
  | .unparseable => .error .parseSyntaxError
  | .parsed (Json.obj fields) =>
    match Page.matchedCallback s fields with
    | some (key, cid) =>
      match Page.jget fields "error" with
      | some Json.null => .error .errorFieldTypeError
      | some e =>
        .ok (⟨s.packetCounter, merase s.packetCallbacks key⟩,
          [Page.REffect.logError e, Page.REffect.reject cid e])
      | none =>
        .ok (⟨s.packetCounter, merase s.packetCallbacks key⟩,
          [Page.REffect.resolve cid (Page.jget fields "result")])
    | none =>
      match Page.jget fields "method" with
      | some mv => .ok (s, [Page.REffect.emit mv (Page.jget fields "params")])
      | none => .ok (s, [Page.REffect.warn])
  | .parsed (Json.arr _) => .ok (s, [Page.REffect.warn])
  | .parsed _ => .error .inOperatorTypeError

/-- Whether handling a raw inbound message threw out of the receive path. -/
def Page.throwsRaw : Except Page.Thrown (Page.ConnState × List Page.REffect) → Bool
  | .error _ => true
  | .ok _ => false

/-- An emitter holding exactly two pending one-shot waiters for `"M"`,
reachable from a fresh emitter by two `wait("M")` calls. -/
def Page.twoWaiters : Page.Emitter := Page.wait (Page.wait ⟨[]⟩ "M" 1) "M" 2

/-- A sample emitter: a durable listener for `"M"`, a one-shot waiter for
`"M"`, and a durable listener for `"N"`. -/
def Page.sampleEmitter : Page.Emitter :=
  Page.listen (Page.wait (Page.listen ⟨[]⟩ "M" 1) "M" 2) "N" 3

/-- An evaluation stream whose every attempt yields the falsy value
`false`. -/
def Page.alwaysFalsy : Nat → Except Json Json := fun _ => .ok (Json.bool false)

/-- An evaluation stream whose first attempt fails. -/
def Page.failsFirst : Nat → Except Json Json := fun _ => .error (Json.str "boom")

/-- The invariant of the browser registry: every cached page identity was
allocated below the allocation counter, and no two ids share a cached page
instance. -/
def Browser.BInv (b : Browser.BState) : Prop :=
  (∀ pr ∈ b.sockets, pr.2 < b.nextPage) ∧ (b.sockets.map Prod.snd).Nodup

/-- Descriptor `A` of the default-target discovery scenario. -/
def Browser.descrA : Browser.TargetDescriptor :=
  ⟨"A", "", "page", "about:blank#default-page", "ws://x"⟩

/-- Descriptor `B` of the default-target discovery scenario. -/
def Browser.descrB : Browser.TargetDescriptor :=
  ⟨"B", "", "page", "http://foo", "ws://y"⟩

/-- Invariant of a connection: every key of the pending map was allocated
at or below the current packet counter. It holds for a fresh connection and
is preserved by `send`. -/
def Page.KeyBound (s : Page.ConnState) : Prop :=
  ∀ pr ∈ s.packetCallbacks, pr.1 ≤ s.packetCounter

section MapLemmas

variable {κ ν : Type} [DecidableEq κ]

theorem mfind?_mem {m : List (κ × ν)} {k : κ} {v : ν}
    (h : mfind? m k = some v) : (k, v) ∈ m := by
  induction m with
  | nil => simp [mfind?] at h
  | cons pr rest ih =>
    obtain ⟨a, b⟩ := pr
    by_cases hk : a = k
    · subst hk
      simp [mfind?] at h
      simp [h]
    · simp [mfind?, hk] at h
      exact List.mem_cons_of_mem _ (ih h)

theorem mem_mfind?_isSome {m : List (κ × ν)} {k : κ} {v : ν}
    (h : (k, v) ∈ m) : (mfind? m k).isSome := by
  induction m with
  | nil => simp at h
  | cons pr rest ih =>
    obtain ⟨a, b⟩ := pr
    by_cases hk : a = k
    · subst hk; simp [mfind?]
    · rcases List.mem_cons.mp h with h1 | h2
      · cases h1; simp at hk
      · simp [mfind?, hk]
        exact ih h2

theorem mfind?_eq_none_of_forall {m : List (κ × ν)} {k : κ}
    (h : ∀ pr ∈ m, pr.1 ≠ k) : mfind? m k = none := by
  induction m with
  | nil => rfl
  | cons pr rest ih =>
    obtain ⟨a, b⟩ := pr
    have ha : a ≠ k := h (a, b) (List.mem_cons_self _ _)
    simp [mfind?, ha]
    exact ih fun q hq => h q (List.mem_cons_of_mem _ hq)

theorem mfind?_merase_ne {m : List (κ × ν)} {k a : κ}
    (h : a ≠ k) : mfind? (merase m k) a = mfind? m a := by
  induction m with
  | nil => rfl
  | cons pr rest ih =>
    obtain ⟨x, y⟩ := pr
    by_cases hk : x = k
    · subst hk
      have hx : x ≠ a := fun he => h he.symm
      simp [merase, mfind?, hx]
    · by_cases hx : x = a
      · subst hx; simp [merase, hk, mfind?]
      · simp [merase, hk, mfind?, hx]
        exact ih

theorem merase_sublist (m : List (κ × ν)) (k : κ) : (merase m k).Sublist m := by
  induction m with
  | nil => simp [merase]
  | cons pr rest ih =>
    obtain ⟨x, y⟩ := pr
    by_cases hk : x = k
    · simp [merase, hk]
    · simp [merase, hk]
      exact ih

theorem mfind?_mset_self (m : List (κ × ν)) (k : κ) (v : ν) :
    mfind? (mset m k v) k = some v := by
  induction m with
  | nil => simp [mset, mfind?]
  | cons pr rest ih =>
    obtain ⟨x, y⟩ := pr
    by_cases hk : x = k
    · simp [mset, hk, mfind?]
    · simp [mset, hk, mfind?]
      exact ih

theorem mfind?_mset_ne (m : List (κ × ν)) (k a : κ) (v : ν) (h : a ≠ k) :
    mfind? (mset m k v) a = mfind? m a := by
  induction m with
  | nil =>
    simp [mset, mfind?]
    exact fun he => h he.symm
  | cons pr rest ih =>
    obtain ⟨x, y⟩ := pr
    by_cases hk : x = k
    · subst hk
      have hxa : x ≠ a := fun he => h he.symm
      simp [mset, mfind?, hxa]
    · by_cases hx : x = a
      · subst hx; simp [mset, hk, mfind?]
      · simp [mset, hk, mfind?, hx]
        exact ih

theorem mset_fresh (m : List (κ × ν)) (k : κ) (v : ν)
    (h : mfind? m k = none) : mset m k v = m ++ [(k, v)] := by
  induction m with
  | nil => rfl
  | cons pr rest ih =>
    obtain ⟨x, y⟩ := pr
    by_cases hk : x = k
    · simp [mfind?, hk] at h
    · simp [mfind?, hk] at h
      simp [mset, hk, ih h]

end MapLemmas

/-- C3 counterexample: the receive path does throw, on three concrete
inbound frames the claim covers: text that is not parseable as JSON
(`JSON.parse` throws a `SyntaxError`); the frame `"5"`, which parses as
JSON but makes `'id' in json` throw a `TypeError` on a number; and the
frame with a matched pending id and `error: null`, where reading
`json.error.code` throws a `TypeError`. -/
theorem receive_path_throws_on_malformed :
    Page.throwsRaw (Page.onRawMessage Page.ConnState.init RawInbound.unparseable) = true
    ∧ Page.throwsRaw (Page.onRawMessage Page.ConnState.init
        (RawInbound.parsed (Json.num 5))) = true
    ∧ Page.throwsRaw (Page.onRawMessage ⟨1, [(1, 10)]⟩
        (RawInbound.parsed (Json.obj [("id", Json.num 1), ("error", Json.null)])))
      = true :=
  ⟨rfl, rfl, rfl⟩

/-- C3 (amended): the receive path returns normally — reporting the frame
at most — for every inbound frame that parses as a JSON object, except an
object frame whose id matches a pending request and whose `error` field is
present with the value `null` (reading `error.code` then throws); a frame
parsing to an array is warned and ignored; every other inbound frame
throws out of the receive path: unparseable text (a `SyntaxError` from
`JSON.parse`) and top-level primitives (a `TypeError` from the `in`
operator). -/
theorem receive_path_throw_classification (s : Page.ConnState) (j : Json) :
    (∀ fields, j = Json.obj fields →
      Page.throwsRaw (Page.onRawMessage s (RawInbound.parsed j))
        = ((Page.matchedCallback s fields).isSome
            && Page.isNull (Page.jget fields "error")))
    ∧ (∀ xs, j = Json.arr xs →
        Page.onRawMessage s (RawInbound.parsed j)
          = Except.ok (s, [Page.REffect.warn]))
    ∧ ((∀ fields, j ≠ Json.obj fields) → (∀ xs, j ≠ Json.arr xs) →
        Page.onRawMessage s (RawInbound.parsed j)
          = Except.error Page.Thrown.inOperatorTypeError)
    ∧ Page.onRawMessage s RawInbound.unparseable
        = Except.error Page.Thrown.parseSyntaxError := by
  refine ⟨?_, ?_, ?_, rfl⟩
  · intro fields hj
    subst hj
    cases hmc : Page.matchedCallback s fields with
    | none =>
      cases hmv : Page.jget fields "method" <;>
        simp [Page.onRawMessage, hmc, hmv, Page.throwsRaw]
    | some pr =>
      obtain ⟨key, cid⟩ := pr
      cases he : Page.jget fields "error" with
      | none => simp [Page.onRawMessage, hmc, he, Page.throwsRaw, Page.isNull]
      | some e =>
        cases e <;>
          simp [Page.onRawMessage, hmc, he, Page.throwsRaw, Page.isNull]
  · intro xs hj
    subst hj
    rfl
  · intro hobj harr
    cases j with
    | obj fields => exact absurd rfl (hobj fields)
    | arr xs => exact absurd rfl (harr xs)
    | null => rfl
    | bool b => rfl
    | num n => rfl
    | str t => rfl

/-- C3 witness: one concrete frame of each class: an object frame with an
unmatched id and a method returns normally (its throw condition evaluates
to false); an array frame is warned; a top-level string throws the
in-operator `TypeError`; unparseable text throws the parse error. -/
theorem receive_path_throw_classification_witness :
    Page.throwsRaw (Page.onRawMessage ⟨1, [(1, 10)]⟩
        (RawInbound.parsed (Json.obj [("id", Json.num 9), ("method", Json.str "Ev")])))
      = ((Page.matchedCallback ⟨1, [(1, 10)]⟩
            [("id", Json.num 9), ("method", Json.str "Ev")]).isSome
          && Page.isNull (Page.jget [("id", Json.num 9), ("method", Json.str "Ev")] "error"))
    ∧ Page.onRawMessage ⟨1, [(1, 10)]⟩ (RawInbound.parsed (Json.arr []))
        = Except.ok (⟨1, [(1, 10)]⟩, [Page.REffect.warn])
    ∧ Page.onRawMessage ⟨1, [(1, 10)]⟩ (RawInbound.parsed (Json.str "x"))
        = Except.error Page.Thrown.inOperatorTypeError
    ∧ Page.onRawMessage ⟨1, [(1, 10)]⟩ RawInbound.unparseable
        = Except.error Page.Thrown.parseSyntaxError := by
  refine ⟨?_, ?_, ?_, ?_⟩
  · exact (receive_path_throw_classification ⟨1, [(1, 10)]⟩
      (Json.obj [("id", Json.num 9), ("method", Json.str "Ev")])).1 _ rfl
  · exact (receive_path_throw_classification ⟨1, [(1, 10)]⟩ (Json.arr [])).2.1 [] rfl
  · exact (receive_path_throw_classification ⟨1, [(1, 10)]⟩ (Json.str "x")).2.2.1
      (fun fields h => Json.noConfusion h) (fun xs h => Json.noConfusion h)
  · exact (receive_path_throw_classification ⟨1, [(1, 10)]⟩ Json.null).2.2.2

/-- C4: `exec` issues its `Runtime.evaluate` request with
`returnByValue: true`; when the evaluation response carries an
`exceptionDetails` descriptor the call rejects with that descriptor
verbatim (hence never resolves), and when it carries none the call
resolves with the evaluation response bearing the evaluated value. -/
theorem exec_exception_handling :
    (∀ script optP,
      mfind? (Page.execRequest script optP).2 "returnByValue" = some (Json.bool true))
    ∧ (∀ (r : Page.EvalResult) (d : Json), r.exceptionDetails = some d →
        Page.execResolve r = Except.error d)
    ∧ (∀ r : Page.EvalResult, r.exceptionDetails = none →
        Page.execResolve r = Except.ok r) := by
  refine ⟨fun script optP => rfl, fun r d hd => ?_, fun r hn => ?_⟩
  · simp [Page.execResolve, hd]
  · simp [Page.execResolve, hn]

/-- C4 witness: a concrete evaluation response with `exceptionDetails`
rejects with it verbatim, and one without it resolves with the response. -/
theorem exec_exception_handling_witness :
    Page.execResolve ⟨⟨Json.num 5⟩, some (Json.str "boom")⟩
        = Except.error (Json.str "boom")
    ∧ Page.execResolve ⟨⟨Json.num 5⟩, none⟩ = Except.ok ⟨⟨Json.num 5⟩, none⟩ :=
  ⟨exec_exception_handling.2.1 ⟨⟨Json.num 5⟩, some (Json.str "boom")⟩ (Json.str "boom") rfl,
   exec_exception_handling.2.2 ⟨⟨Json.num 5⟩, none⟩ rfl⟩

/-- C6: `navigate` never issues its `Page.navigate` control call: it reads
`this._page`, which is not a property of `Page`, so every call throws a
`TypeError` instead of sending on the target's own connection and
(optionally) awaiting `Page.loadEventFired` — the code contradicts the
documented intent of the method. -/
theorem navigate_always_throws (url : String) (waitForLoad : Bool) :
    Page.navigate url waitForLoad
      = Except.error "TypeError: Cannot read property send of undefined" := by
  simp [Page.navigate, Page.pageInstanceFields]

/-- C9: an inbound frame whose `id` has no entry in the pending-request map
leaves the connection state (in particular the pending map) unchanged and
delivers no resolution or rejection to any pending request. -/
theorem unmatched_id_preserves_pending (s : Page.ConnState) (j : Frame) (i : Nat)
    (hid : j.id? = some i) (hmiss : mfind? s.packetCallbacks i = none) :
    ∃ effs, Page.onMessage s (Inbound.frame j) = Except.ok (s, effs)
      ∧ Page.outcomes effs = [] := by
  cases hm : j.method? with
  | none =>
    exact ⟨[Effect.warn], by simp [Page.onMessage, hid, hmiss, hm], rfl⟩
  | some name =>
    exact ⟨[Effect.emit name j.params?],
      by simp [Page.onMessage, hid, hmiss, hm], rfl⟩

/-- C9 witness: the scenario frame `{id: 7, error: {code: -1, message:
"bad"}}` against a connection holding one pending request under id 1. -/
theorem unmatched_id_preserves_pending_witness :
    mfind? (Page.ConnState.mk 3 [(1, 10)]).packetCallbacks 7 = none
    ∧ ∃ effs,
        Page.onMessage ⟨3, [(1, 10)]⟩
            (Inbound.frame ⟨some 7, none, some ⟨-1, "bad"⟩, none, none⟩)
          = Except.ok (⟨3, [(1, 10)]⟩, effs)
        ∧ Page.outcomes effs = [] :=
  ⟨rfl, unmatched_id_preserves_pending ⟨3, [(1, 10)]⟩
    ⟨some 7, none, some ⟨-1, "bad"⟩, none, none⟩ 7 rfl rfl⟩

/-- C10: a frame whose `id` matches a pending request is handled purely as
a response — no event is emitted even if the frame carries a `method` — and
a frame whose `id` matches nothing but which carries a `method` is
dispatched to that method's listeners rather than dropped. -/
theorem response_frames_never_dispatch (s : Page.ConnState) (j : Frame) (i cid : Nat) :
    (j.id? = some i → mfind? s.packetCallbacks i = some cid →
      ∃ effs, Page.onMessage s (Inbound.frame j)
          = Except.ok (⟨s.packetCounter, merase s.packetCallbacks i⟩, effs)
        ∧ ∀ name p, Effect.emit name p ∉ effs)
    ∧ (j.id? = some i → mfind? s.packetCallbacks i = none →
        ∀ name, j.method? = some name →
          Page.onMessage s (Inbound.frame j)
            = Except.ok (s, [Effect.emit name j.params?])) := by
  constructor
  · intro hid hhit
    cases he : j.error? with
    | some e =>
      refine ⟨[Effect.logError e.code e.message, Effect.reject cid e],
        by simp [Page.onMessage, hid, hhit, he], ?_⟩
      intro name p hmem
      simp at hmem
    | none =>
      refine ⟨[Effect.resolve cid j.result?],
        by simp [Page.onMessage, hid, hhit, he], ?_⟩
      intro name p hmem
      simp at hmem
  · intro hid hmiss name hm
    simp [Page.onMessage, hid, hmiss, hm]

/-- C10 witness: a frame `{id: 1, method: "Ev"}` with id 1 pending emits no
event; the same frame against an empty pending map dispatches `"Ev"`. -/
theorem response_frames_never_dispatch_witness :
    (mfind? [(1, 10)] 1 = some 10
      ∧ ∃ effs, Page.onMessage ⟨3, [(1, 10)]⟩
            (Inbound.frame ⟨some 1, none, none, some "Ev", some Json.null⟩)
          = Except.ok (⟨3, merase [(1, 10)] 1⟩, effs)
        ∧ ∀ name p, Effect.emit name p ∉ effs)
    ∧ Page.onMessage ⟨3, []⟩
          (Inbound.frame ⟨some 1, none, none, some "Ev", some Json.null⟩)
        = Except.ok (⟨3, []⟩, [Effect.emit "Ev" (some Json.null)]) :=
  ⟨⟨rfl, (response_frames_never_dispatch ⟨3, [(1, 10)]⟩
      ⟨some 1, none, none, some "Ev", some Json.null⟩ 1 10).1 rfl rfl⟩,
   (response_frames_never_dispatch ⟨3, []⟩
      ⟨some 1, none, none, some "Ev", some Json.null⟩ 1 10).2 rfl rfl "Ev" rfl⟩

/-- C2 counterexample: with two pending one-shot waiters for `"M"`
(created by two `wait("M")` calls), a single inbound `"M"` event is
delivered to both of them — refuting delivery "to at most one pending
one-shot waiter". -/
theorem event_delivered_to_two_waiters :
    ¬ (((Page.emitEvent Page.twoWaiters "M").2.filter (fun l => l.once)).length ≤ 1) := by
  decide

/-- C2 (amended): an inbound event frame with method `M` (and no matched
id) emits exactly one `M` event; that event is delivered to every listener
registered for `M` — each durable listener and every pending one-shot
waiter — and to no listener registered under a different name; one-shot
waiters are deregistered by the delivery while all other registrations
survive it. -/
theorem event_dispatch (em : Page.Emitter) (method : String)
    (hld : (em.listeners.map (fun pr => pr.2.lid)).Nodup) :
    (∀ (s : Page.ConnState) (j : Frame), j.id? = none → j.method? = some method →
        Page.onMessage s (Inbound.frame j) = Except.ok (s, [Effect.emit method j.params?]))
    ∧ (∀ l : Page.Listener, (method, l) ∈ em.listeners →
        l ∈ (Page.emitEvent em method).2)
    ∧ (∀ (name : String) (l : Page.Listener), (name, l) ∈ em.listeners →
        l ∈ (Page.emitEvent em method).2 → name = method)
    ∧ (∀ l : Page.Listener, l.once = true →
        (method, l) ∉ (Page.emitEvent em method).1.listeners)
    ∧ (∀ (name : String) (l : Page.Listener), (name, l) ∈ em.listeners →
        (name ≠ method ∨ l.once = false) →
        (name, l) ∈ (Page.emitEvent em method).1.listeners) := by
  refine ⟨fun s j hid hm => by simp [Page.onMessage, hid, hm], ?_, ?_, ?_, ?_⟩
  · intro l hl
    exact List.mem_map_of_mem Prod.snd (List.mem_filter.mpr ⟨hl, by simp⟩)
  · intro name l hl hf
    rcases List.mem_map.mp hf with ⟨pr, hpr, hsnd⟩
    rcases List.mem_filter.mp hpr with ⟨hmem, hkey⟩
    have hpr1 : pr.1 = method := by simpa using hkey
    have hml : (method, l) ∈ em.listeners := by
      have : pr = (method, l) := by
        cases pr; simp_all
      exact this ▸ hmem
    have := List.inj_on_of_nodup_map hld hl hml (by simp)
    exact congrArg Prod.fst this
  · intro l honce hmem
    rcases List.mem_filter.mp hmem with ⟨_, hpred⟩
    simp [honce] at hpred
  · intro name l hl hcond
    refine List.mem_filter.mpr ⟨hl, ?_⟩
    rcases hcond with hne | hdur
    · simp [hne]
    · simp [hdur]

/-- C2 witness: an emitter with a durable `"M"` listener, a one-shot `"M"`
waiter, and a durable `"N"` listener; an `"M"` event reaches the first two,
deregisters the waiter, and leaves the `"N"` listener untouched. -/
theorem event_dispatch_witness :
    (Page.sampleEmitter.listeners.map (fun pr => pr.2.lid)).Nodup
    ∧ (⟨1, false⟩ : Page.Listener) ∈ (Page.emitEvent Page.sampleEmitter "M").2
    ∧ (⟨2, true⟩ : Page.Listener) ∈ (Page.emitEvent Page.sampleEmitter "M").2
    ∧ ("M", (⟨2, true⟩ : Page.Listener)) ∉ (Page.emitEvent Page.sampleEmitter "M").1.listeners
    ∧ ("N", (⟨3, false⟩ : Page.Listener)) ∈ (Page.emitEvent Page.sampleEmitter "M").1.listeners := by
  have hld : (Page.sampleEmitter.listeners.map (fun pr => pr.2.lid)).Nodup := by decide
  refine ⟨hld, ?_, ?_, ?_, ?_⟩
  · exact (event_dispatch Page.sampleEmitter "M" hld).2.1 ⟨1, false⟩ (by decide)
  · exact (event_dispatch Page.sampleEmitter "M" hld).2.1 ⟨2, true⟩ (by decide)
  · exact (event_dispatch Page.sampleEmitter "M" hld).2.2.2.1 ⟨2, true⟩ rfl
  · exact (event_dispatch Page.sampleEmitter "M" hld).2.2.2.2 "N" ⟨3, false⟩
      (by decide) (Or.inl (by decide))

/-- Setting a key to the value it already maps to leaves the map
unchanged. -/
theorem mset_self_of_mfind? {κ ν : Type} [DecidableEq κ]
    {m : List (κ × ν)} {k : κ} {v : ν} (h : mfind? m k = some v) :
    mset m k v = m := by
  induction m with
  | nil => simp [mfind?] at h
  | cons pr rest ih =>
    obtain ⟨x, y⟩ := pr
    by_cases hk : x = k
    · subst hk
      simp [mfind?] at h
      simp [mset, h]
    · simp [mfind?, hk] at h
      simp [mset, hk, ih h]

/-- `Browser.get` preserves the registry invariant. -/
theorem get_preserves_inv (b : Browser.BState) (t : Browser.TargetDescriptor)
    (hinv : Browser.BInv b) : Browser.BInv (Browser.get b t).1 := by
  obtain ⟨hbound, hvals⟩ := hinv
  cases h1 : mfind? b.sockets t.id with
  | some p =>
    simp only [Browser.get, h1]
    rw [mset_self_of_mfind? h1]
    exact ⟨hbound, hvals⟩
  | none =>
    simp only [Browser.get, h1]
    rw [mset_fresh _ _ _ h1]
    constructor
    · intro pr hpr
      rcases List.mem_append.mp hpr with hold | hnew
      · exact Nat.lt_succ_of_lt (hbound pr hold)
      · simp at hnew
        simp [hnew]
    · rw [List.map_append, List.nodup_append]
      refine ⟨hvals, by simp, ?_⟩
      intro v hv hv'
      simp at hv'
      rcases List.mem_map.mp hv with ⟨pr, hpr, hsnd⟩
      have := hbound pr hpr
      omega

/-- C7: `Browser.get` is idempotent by target id — a second call for a
descriptor with the same id returns the identical cached instance and
constructs nothing new — while calls for two descriptors with distinct ids
return two distinct instances. -/
theorem get_memoizes (b : Browser.BState) (hinv : Browser.BInv b)
    (t1 t2 : Browser.TargetDescriptor) :
    (t2.id = t1.id →
      (Browser.get (Browser.get b t1).1 t2).2 = (Browser.get b t1).2
      ∧ (Browser.get (Browser.get b t1).1 t2).1.nextPage = (Browser.get b t1).1.nextPage)
    ∧ (t2.id ≠ t1.id →
      (Browser.get (Browser.get b t1).1 t2).2 ≠ (Browser.get b t1).2) := by
  obtain ⟨hbound, hvals⟩ := hinv
  constructor
  · intro heq
    cases h1 : mfind? b.sockets t1.id with
    | some p =>
      have h2 : mfind? (mset b.sockets t1.id p) t2.id = some p := by
        rw [heq]; exact mfind?_mset_self _ _ _
      simp [Browser.get, h1, h2]
    | none =>
      have h2 : mfind? (mset b.sockets t1.id b.nextPage) t2.id = some b.nextPage := by
        rw [heq]; exact mfind?_mset_self _ _ _
      simp [Browser.get, h1, h2]
  · intro hne
    cases h1 : mfind? b.sockets t1.id with
    | some p =>
      have hstep : mfind? (mset b.sockets t1.id p) t2.id = mfind? b.sockets t2.id :=
        mfind?_mset_ne _ _ _ _ hne
      cases h2 : mfind? b.sockets t2.id with
      | some q =>
        have hq : (t2.id, q) ∈ b.sockets := mfind?_mem h2
        have hp : (t1.id, p) ∈ b.sockets := mfind?_mem h1
        have hqp : q ≠ p := by
          intro hqp
          have heq := List.inj_on_of_nodup_map hvals hq hp (by simp [hqp])
          exact hne (congrArg Prod.fst heq)
        simp [Browser.get, h1, hstep, h2, hqp]
      | none =>
        have hp : (t1.id, p) ∈ b.sockets := mfind?_mem h1
        have : p < b.nextPage := hbound _ hp
        simp [Browser.get, h1, hstep, h2]
        omega
    | none =>
      have hstep : mfind? (mset b.sockets t1.id b.nextPage) t2.id = mfind? b.sockets t2.id :=
        mfind?_mset_ne _ _ _ _ hne
      cases h2 : mfind? b.sockets t2.id with
      | some q =>
        have hq : (t2.id, q) ∈ b.sockets := mfind?_mem h2
        have : q < b.nextPage := hbound _ hq
        simp [Browser.get, h1, hstep, h2]
        omega
      | none =>
        simp [Browser.get, h1, hstep, h2]

/-- C7 witness: from a fresh registry, fetching descriptor `A` twice yields
the identical instance, while fetching `A` then `B` yields two distinct
instances. -/
theorem get_memoizes_witness :
    Browser.BInv Browser.BState.init
    ∧ (Browser.get (Browser.get Browser.BState.init Browser.descrA).1 Browser.descrA).2
        = (Browser.get Browser.BState.init Browser.descrA).2
    ∧ (Browser.get (Browser.get Browser.BState.init Browser.descrA).1 Browser.descrB).2
        ≠ (Browser.get Browser.BState.init Browser.descrA).2 := by
  have hinv : Browser.BInv Browser.BState.init := by
    constructor
    · intro pr hpr
      simp [Browser.BState.init] at hpr
    · simp [Browser.BState.init]
  exact ⟨hinv,
    ((get_memoizes Browser.BState.init hinv Browser.descrA Browser.descrA).1 rfl).1,
    (get_memoizes Browser.BState.init hinv Browser.descrA Browser.descrB).2 (by decide)⟩

/-- C8: `_initialize` designates as default target the first listed
descriptor whose url is the sentinel blank-page URL, and falls back to the
first descriptor of the discovery response when no url matches. -/
theorem default_target_selection (pages : List Browser.TargetDescriptor) :
    ((∀ p ∈ pages, p.url ≠ Browser.defaultPageUrl) →
      Browser.defaultDescriptor pages = pages.head?)
    ∧ (∀ (l1 : List Browser.TargetDescriptor) (q : Browser.TargetDescriptor)
        (l2 : List Browser.TargetDescriptor),
        pages = l1 ++ q :: l2 → q.url = Browser.defaultPageUrl →
        (∀ p ∈ l1, p.url ≠ Browser.defaultPageUrl) →
        Browser.defaultDescriptor pages = some q) := by
  constructor
  · intro h
    have hnone : pages.find? (fun p => p.url == Browser.defaultPageUrl) = none := by
      rw [List.find?_eq_none]
      intro x hx
      simpa using h x hx
    simp [Browser.defaultDescriptor, hnone]
  · intro l1 q l2 hsplit hq hmiss
    subst hsplit
    have hfind : (l1 ++ q :: l2).find? (fun p => p.url == Browser.defaultPageUrl)
        = some q := by
      induction l1 with
      | nil => simp [List.find?_cons, hq]
      | cons a l1 ih =>
        have ha : (a.url == Browser.defaultPageUrl) = false := by
          simpa using hmiss a (List.mem_cons_self _ _)
        have hrest := ih fun p hp => hmiss p (List.mem_cons_of_mem _ hp)
        simpa [List.find?_cons, ha] using hrest
    simp [Browser.defaultDescriptor, hfind]

/-- C8 witness: the discovery scenario `[A (sentinel url), B]` selects
descriptor `A` as the default target. -/
theorem default_target_selection_witness :
    Browser.descrA.url = Browser.defaultPageUrl
    ∧ Browser.defaultDescriptor [Browser.descrA, Browser.descrB] = some Browser.descrA :=
  ⟨rfl, (default_target_selection [Browser.descrA, Browser.descrB]).2
    [] Browser.descrA [Browser.descrB] rfl rfl (by simp)⟩

/-- With every attempt evaluating to a falsy value, the retry loop of
`waitFor` performs exactly `passes.toNat + 1` further attempts and then
rejects with the timeout message. -/
theorem waitForAux_timeout (evals : Nat → Except Json Json) (t : Int)
    (hfal : ∀ m, ∃ v, evals m = Except.ok v ∧ Page.truthy v = false) :
    ∀ (n k : Nat) (passes : Int), passes.toNat = n →
      Page.waitForAux evals t k passes
        = (Page.WaitOutcome.timedOut ("Timeout of " ++ toString t ++ "ms exceeded"),
           k + n + 1) := by
  intro n
  induction n with
  | zero =>
    intro k passes hp
    obtain ⟨v, hv, htr⟩ := hfal k
    have hle : passes ≤ 0 := by omega
    rw [Page.waitForAux]
    simp [hv, htr, hle]
  | succ n ih =>
    intro k passes hp
    obtain ⟨v, hv, htr⟩ := hfal k
    have hgt : ¬ passes ≤ 0 := by omega
    rw [Page.waitForAux]
    simp only [hv, htr, if_false, hgt, if_true, Bool.false_eq_true, if_neg, ite_false]
    rw [ih (k + 1) (passes - 1) (by omega)]
    have harith : k + 1 + n + 1 = k + (n + 1) + 1 := by omega
    rw [harith]

/-- An evaluation failure at attempt `j`, preceded by falsy results, makes
the retry loop reject immediately with that failure after exactly `j + 1`
attempts, provided the budget admits reaching attempt `j`. -/
theorem waitForAux_failfast (evals : Nat → Except Json Json) (t : Int) :
    ∀ (j k : Nat) (passes : Int) (e : Json),
      evals (k + j) = Except.error e →
      (∀ m, k ≤ m → m < k + j → ∃ v, evals m = Except.ok v ∧ Page.truthy v = false) →
      (j : Int) ≤ passes →
      Page.waitForAux evals t k passes = (Page.WaitOutcome.failed e, k + j + 1) := by
  intro j
  induction j with
  | zero =>
    intro k passes e he _ _
    rw [Page.waitForAux]
    simp at he
    simp [he]
  | succ j ih =>
    intro k passes e he hfal hj
    obtain ⟨v, hv, htr⟩ := hfal k (le_refl _) (by omega)
    have hgt : ¬ passes ≤ 0 := by
      have : (0 : Int) < (j : Int) + 1 := by positivity
      omega
    rw [Page.waitForAux]
    simp only [hv, htr, Bool.false_eq_true, if_false, hgt, ite_false]
    have he' : evals (k + 1 + j) = Except.error e := by
      have harr : k + 1 + j = k + (j + 1) := by omega
      rw [harr]; exact he
    have hfal' : ∀ m, k + 1 ≤ m → m < k + 1 + j →
        ∃ v, evals m = Except.ok v ∧ Page.truthy v = false := by
      intro m hm hm'
      exact hfal m (by omega) (by omega)
    have := ih (k + 1) (passes - 1) e he' hfal' (by omega)
    rw [this]
    have harith : k + 1 + j + 1 = k + (j + 1) + 1 := by omega
    rw [harith]

/-- C5: with an expression evaluating falsy on every attempt, `waitFor`
with timeout 100 rejects with the timeout error after exactly
`100 / 10 + 1 = 11` evaluation attempts (approximately `100/10 = 10`), each
attempt one `execSync` round trip; and an evaluation failure at any attempt
rejects the call immediately, with no further attempts. -/
theorem waitFor_timeout_budget (evals : Nat → Except Json Json) :
    ((∀ m, ∃ v, evals m = Except.ok v ∧ Page.truthy v = false) →
      Page.waitFor evals 100
        = (Page.WaitOutcome.timedOut "Timeout of 100ms exceeded", 11))
    ∧ (∀ (j : Nat) (e : Json), evals j = Except.error e →
        (∀ m, m < j → ∃ v, evals m = Except.ok v ∧ Page.truthy v = false) →
        ∀ t : Int, (j : Int) ≤ t / 10 →
        Page.waitFor evals t = (Page.WaitOutcome.failed e, j + 1)) := by
  constructor
  · intro hfal
    have h := waitForAux_timeout evals 100 hfal 10 0 ((100 : Int) / 10) (by decide)
    rw [Page.waitFor, h]
    rfl
  · intro j e he hfal t ht
    have h := waitForAux_failfast evals t j 0 (t / 10) e (by simpa using he)
      (fun m _ hm => hfal m (by omega)) ht
    rw [Page.waitFor, h]
    simp

/-- C5 witness: the always-falsy stream times out at timeout 100 after 11
attempts, and a stream failing on its first attempt rejects with that
failure after one attempt. -/
theorem waitFor_timeout_budget_witness :
    (∀ m, ∃ v, Page.alwaysFalsy m = Except.ok v ∧ Page.truthy v = false)
    ∧ Page.waitFor Page.alwaysFalsy 100
        = (Page.WaitOutcome.timedOut "Timeout of 100ms exceeded", 11)
    ∧ Page.waitFor Page.failsFirst 10000
        = (Page.WaitOutcome.failed (Json.str "boom"), 1) := by
  have hfal : ∀ m, ∃ v, Page.alwaysFalsy m = Except.ok v ∧ Page.truthy v = false :=
    fun m => ⟨Json.bool false, rfl, rfl⟩
  refine ⟨hfal, (waitFor_timeout_budget Page.alwaysFalsy).1 hfal, ?_⟩
  exact (waitFor_timeout_budget Page.failsFirst).2 0 (Json.str "boom") rfl
    (fun m hm => absurd hm (by omega)) 10000 (by decide)

/-- Looking up the erased key in a map with nodup keys finds nothing. -/
theorem mfind?_merase_self_of_nodup {κ ν : Type} [DecidableEq κ]
    {m : List (κ × ν)} (hk : (m.map Prod.fst).Nodup) (k : κ) :
    mfind? (merase m k) k = none := by
  induction m with
  | nil => rfl
  | cons pr rest ih =>
    obtain ⟨x, y⟩ := pr
    rw [List.map_cons] at hk
    obtain ⟨hx1, hx2⟩ := List.nodup_cons.mp hk
    by_cases hx : x = k
    · subst hx
      have hm : merase ((x, y) :: rest) x = rest := by simp [merase]
      rw [hm]
      refine mfind?_eq_none_of_forall (fun q hq hq1 => hx1 ?_)
      have hq2 : q.1 ∈ rest.map Prod.fst := List.mem_map_of_mem Prod.fst hq
      rw [hq1] at hq2
      exact hq2
    · simp only [merase, if_neg hx, mfind?, if_neg hx]
      exact ih hx2

/-- Looking up a key present in a map with nodup keys finds its value. -/
theorem mfind?_of_mem_nodup {κ ν : Type} [DecidableEq κ]
    {m : List (κ × ν)} (hk : (m.map Prod.fst).Nodup) {k : κ} {v : ν}
    (h : (k, v) ∈ m) : mfind? m k = some v := by
  induction m with
  | nil => simp at h
  | cons pr rest ih =>
    obtain ⟨x, y⟩ := pr
    rw [List.map_cons] at hk
    obtain ⟨hx1, hx2⟩ := List.nodup_cons.mp hk
    rcases List.mem_cons.mp h with h1 | h2
    · cases h1
      simp [mfind?]
    · by_cases hx : x = k
      · subst hx
        exact absurd (List.mem_map_of_mem Prod.fst h2) hx1
      · simp only [mfind?, if_neg hx]
        exact ih hx2 h2

/-- A response frame whose id is pending resolves exactly that pending
callback with the frame's payload and deletes its entry. -/
theorem onMessage_resp_hit {s : Page.ConnState} {i cid : Nat}
    (h : mfind? s.packetCallbacks i = some cid) (p : Page.Payload) :
    ∃ effs, Page.onMessage s (Page.respInbound (i, p))
        = Except.ok (⟨s.packetCounter, merase s.packetCallbacks i⟩, effs)
      ∧ Page.outcomes effs = [(cid, p)] := by
  cases p with
  | ok v =>
    exact ⟨[Effect.resolve cid v],
      by simp [Page.onMessage, Page.respInbound, Page.respFrame, h], rfl⟩
  | err e =>
    exact ⟨[Effect.logError e.code e.message, Effect.reject cid e],
      by simp [Page.onMessage, Page.respInbound, Page.respFrame, h], rfl⟩

/-- The receive path only ever shrinks the pending map. -/
theorem onMessage_ok_sublist {s s' : Page.ConnState} {m : Inbound} {effs : List Effect}
    (h : Page.onMessage s m = Except.ok (s', effs)) :
    s'.packetCallbacks.Sublist s.packetCallbacks := by
  cases m with
  | unparseable => simp [Page.onMessage] at h
  | frame j =>
    cases hf : j.id?.bind (mfind? s.packetCallbacks) with
    | some cid =>
      cases he : j.error? with
      | some e =>
        simp only [Page.onMessage, hf, he, Except.ok.injEq, Prod.mk.injEq] at h
        rw [← h.1]
        exact merase_sublist _ _
      | none =>
        simp only [Page.onMessage, hf, he, Except.ok.injEq, Prod.mk.injEq] at h
        rw [← h.1]
        exact merase_sublist _ _
    | none =>
      cases hm : j.method? with
      | some name =>
        simp only [Page.onMessage, hf, hm, Except.ok.injEq, Prod.mk.injEq] at h
        rw [← h.1]
      | none =>
        simp only [Page.onMessage, hf, hm, Except.ok.injEq, Prod.mk.injEq] at h
        rw [← h.1]

/-- Unfolding `processAll` on a message handled without throwing. -/
theorem processAll_cons_ok {s s' : Page.ConnState} {m : Inbound} {effs : List Effect}
    (h : Page.onMessage s m = Except.ok (s', effs)) (ms : List Inbound) :
    Page.processAll s (m :: ms)
      = ((Page.processAll s' ms).1, effs ++ (Page.processAll s' ms).2) := by
  cases hp : Page.processAll s' ms with
  | mk a b => simp [Page.processAll, h, hp]

/-- Unfolding `processAll` on a message whose handling threw. -/
theorem processAll_cons_err {s : Page.ConnState} {m : Inbound} {u : Unit}
    (h : Page.onMessage s m = Except.error u) (ms : List Inbound) :
    Page.processAll s (m :: ms) = Page.processAll s ms := by
  simp [Page.processAll, h]

/-- `outcomes` distributes over effect-list concatenation. -/
theorem outcomes_append (a b : List Effect) :
    Page.outcomes (a ++ b) = Page.outcomes a ++ Page.outcomes b := by
  induction a with
  | nil => rfl
  | cons e es ih => cases e <;> simp [Page.outcomes, ih]

/-- Every outcome a single message delivers targets a callback that was
pending before the message was handled. -/
theorem onMessage_outcomes_pending {s s' : Page.ConnState} {m : Inbound}
    {effs : List Effect} (h : Page.onMessage s m = Except.ok (s', effs)) :
    ∀ q ∈ Page.outcomes effs, ∃ i, (i, q.1) ∈ s.packetCallbacks := by
  cases m with
  | unparseable => simp [Page.onMessage] at h
  | frame j =>
    cases hf : j.id?.bind (mfind? s.packetCallbacks) with
    | some cid =>
      have hmem : ∃ i0, (i0, cid) ∈ s.packetCallbacks := by
        cases hi : j.id? with
        | none => rw [hi] at hf; simp at hf
        | some i0 =>
          rw [hi] at hf
          simp at hf
          exact ⟨i0, mfind?_mem hf⟩
      cases he : j.error? with
      | some e =>
        simp only [Page.onMessage, hf, he, Except.ok.injEq, Prod.mk.injEq] at h
        intro q hq
        rw [← h.2] at hq
        simp [Page.outcomes] at hq
        rw [hq]
        exact hmem
      | none =>
        simp only [Page.onMessage, hf, he, Except.ok.injEq, Prod.mk.injEq] at h
        intro q hq
        rw [← h.2] at hq
        simp [Page.outcomes] at hq
        rw [hq]
        exact hmem
    | none =>
      cases hm : j.method? with
      | some name =>
        simp only [Page.onMessage, hf, hm, Except.ok.injEq, Prod.mk.injEq] at h
        intro q hq
        rw [← h.2] at hq
        simp [Page.outcomes] at hq
      | none =>
        simp only [Page.onMessage, hf, hm, Except.ok.injEq, Prod.mk.injEq] at h
        intro q hq
        rw [← h.2] at hq
        simp [Page.outcomes] at hq

/-- Processing any message sequence only shrinks the pending map. -/
theorem processAll_sublist (ms : List Inbound) : ∀ s : Page.ConnState,
    (Page.processAll s ms).1.packetCallbacks.Sublist s.packetCallbacks := by
  induction ms with
  | nil => intro s; exact List.Sublist.refl _
  | cons m rest ih =>
    intro s
    cases h : Page.onMessage s m with
    | error u =>
      rw [processAll_cons_err h rest]
      exact ih s
    | ok pr =>
      obtain ⟨s', effs⟩ := pr
      rw [processAll_cons_ok h rest]
      exact List.Sublist.trans (ih s') (onMessage_ok_sublist h)

/-- A callback label absent from the pending map receives no outcome from
any sequence of inbound messages. -/
theorem processAll_outcomes_absent (ms : List Inbound) :
    ∀ (s : Page.ConnState) (c : Nat),
    (∀ pr ∈ s.packetCallbacks, pr.2 ≠ c) →
    ∀ q ∈ Page.outcomes (Page.processAll s ms).2, q.1 ≠ c := by
  induction ms with
  | nil =>
    intro s c h q hq
    simp [Page.processAll, Page.outcomes] at hq
  | cons m rest ih =>
    intro s c h q hq
    cases hm : Page.onMessage s m with
    | error u =>
      rw [processAll_cons_err hm rest] at hq
      exact ih s c h q hq
    | ok pr =>
      obtain ⟨s', effs⟩ := pr
      rw [processAll_cons_ok hm rest] at hq
      rw [show ((Page.processAll s' rest).1, effs ++ (Page.processAll s' rest).2).2
          = effs ++ (Page.processAll s' rest).2 from rfl, outcomes_append] at hq
      rcases List.mem_append.mp hq with h1 | h2
      · obtain ⟨i, hi⟩ := onMessage_outcomes_pending hm q h1
        intro hqc
        exact h (i, q.1) hi hqc
      · refine ih s' c ?_ q h2
        intro pr hpr
        exact h pr (List.Sublist.subset (onMessage_ok_sublist hm) hpr)

/-- Core correlation argument: from a state whose pending map has distinct
request ids and distinct callbacks, delivering one response frame per
outstanding id (in any order) resolves each callback exactly once, with
exactly the payload of the response frame bearing its own request id. -/
theorem correlation_aux :
    ∀ (rs : List (Nat × Page.Payload)) (s : Page.ConnState),
      (s.packetCallbacks.map Prod.fst).Nodup →
      (s.packetCallbacks.map Prod.snd).Nodup →
      (∀ q ∈ rs, (mfind? s.packetCallbacks q.1).isSome = true) →
      (rs.map Prod.fst).Nodup →
      ∀ (i cid : Nat) (p : Page.Payload),
        mfind? s.packetCallbacks i = some cid → (i, p) ∈ rs →
        (Page.outcomes (Page.processAll s (rs.map Page.respInbound)).2).filter
            (fun r => r.1 == cid) = [(cid, p)] := by
  intro rs
  induction rs with
  | nil =>
    intro s _ _ _ _ i cid p _ hmem
    simp at hmem
  | cons jq rs ih =>
    obtain ⟨j, q⟩ := jq
    intro s hkeys hvals hin hids i cid p hlook hmem
    have hj : (mfind? s.packetCallbacks j).isSome = true :=
      hin (j, q) (List.mem_cons_self _ _)
    obtain ⟨cj, hcj⟩ := Option.isSome_iff_exists.mp hj
    obtain ⟨effs, heq, hout⟩ := onMessage_resp_hit hcj q
    rw [List.map_cons, processAll_cons_ok heq]
    rw [show ((Page.processAll ⟨s.packetCounter, merase s.packetCallbacks j⟩
          (rs.map Page.respInbound)).1,
        effs ++ (Page.processAll ⟨s.packetCounter, merase s.packetCallbacks j⟩
          (rs.map Page.respInbound)).2).2
      = effs ++ (Page.processAll ⟨s.packetCounter, merase s.packetCallbacks j⟩
          (rs.map Page.respInbound)).2 from rfl]
    rw [outcomes_append, hout]
    rw [List.map_cons] at hids
    obtain ⟨hjnotin, hids'⟩ := List.nodup_cons.mp hids
    by_cases hij : i = j
    · subst hij
      have hcc : cj = cid := by
        rw [hcj] at hlook
        exact Option.some.inj hlook
      have hpq : q = p := by
        rcases List.mem_cons.mp hmem with h1 | h2
        · injection h1 with _ h1b
          exact h1b.symm
        · exact absurd (List.mem_map_of_mem Prod.fst h2) hjnotin
      subst hcc
      subst hpq
      have hnil : (Page.outcomes (Page.processAll
            ⟨s.packetCounter, merase s.packetCallbacks i⟩
            (rs.map Page.respInbound)).2).filter (fun r => r.1 == cj) = [] := by
        refine List.filter_eq_nil_iff.mpr (fun a ha => ?_)
        have habs : ∀ pr ∈ merase s.packetCallbacks i, pr.2 ≠ cj := by
          intro pr hpr hc
          have hprs : pr ∈ s.packetCallbacks := (merase_sublist _ _).subset hpr
          have hicid : (i, cj) ∈ s.packetCallbacks := mfind?_mem hlook
          have hpreq : pr = (i, cj) :=
            List.inj_on_of_nodup_map hvals hprs hicid (by simp [hc])
          rw [hpreq] at hpr
          have hsome := mem_mfind?_isSome hpr
          rw [mfind?_merase_self_of_nodup hkeys i] at hsome
          simp at hsome
        have := processAll_outcomes_absent (rs.map Page.respInbound)
          ⟨s.packetCounter, merase s.packetCallbacks i⟩ cj habs a ha
        simpa using this
      rw [List.cons_append, List.nil_append, List.filter_cons]
      simp only [beq_self_eq_true, if_true, hnil]
    · have hcjcid : cj ≠ cid := by
        intro hcc
        have h1 : (j, cj) ∈ s.packetCallbacks := mfind?_mem hcj
        have h2 : (i, cid) ∈ s.packetCallbacks := mfind?_mem hlook
        have heq2 : (j, cj) = (i, cid) :=
          List.inj_on_of_nodup_map hvals h1 h2 (by simp [hcc])
        injection heq2 with heqj _
        exact hij heqj.symm
      have hmem' : (i, p) ∈ rs := by
        rcases List.mem_cons.mp hmem with h1 | h2
        · injection h1 with h1a _
          exact absurd h1a hij
        · exact h2
      rw [List.cons_append, List.nil_append, List.filter_cons]
      have hbeq : (cj == cid) = false := beq_eq_false_iff_ne.mpr hcjcid
      simp only [hbeq, if_false, Bool.false_eq_true]
      refine ih ⟨s.packetCounter, merase s.packetCallbacks j⟩ ?_ ?_ ?_ hids' i cid p ?_ hmem'
      · exact List.Nodup.sublist (List.Sublist.map _ (merase_sublist _ _)) hkeys
      · exact List.Nodup.sublist (List.Sublist.map _ (merase_sublist _ _)) hvals
      · intro r hr
        have hrj : r.1 ≠ j := by
          intro hrj
          have hr2 : r.1 ∈ rs.map Prod.fst := List.mem_map_of_mem Prod.fst hr
          rw [hrj] at hr2
          exact hjnotin hr2
        rw [show mfind? (merase s.packetCallbacks j) r.1
            = mfind? s.packetCallbacks r.1 from mfind?_merase_ne hrj]
        exact hin r (List.mem_cons_of_mem _ hr)
      · rw [show mfind? (merase s.packetCallbacks j) i
            = mfind? s.packetCallbacks i from mfind?_merase_ne hij]
        exact hlook

/-- `send` appends a fresh entry under the freshly allocated id. -/
theorem send_pending {s : Page.ConnState} (h : Page.KeyBound s) (c : Nat) :
    (Page.send s c).1.packetCallbacks
      = s.packetCallbacks ++ [(s.packetCounter + 1, c)] := by
  have hfresh : mfind? s.packetCallbacks (s.packetCounter + 1) = none :=
    mfind?_eq_none_of_forall (fun pr hpr => by have := h pr hpr; omega)
  simp [Page.send, mset_fresh _ _ _ hfresh]

/-- `send` preserves the key-bound invariant. -/
theorem send_keybound {s : Page.ConnState} (h : Page.KeyBound s) (c : Nat) :
    Page.KeyBound (Page.send s c).1 := by
  intro pr hpr
  rw [send_pending h] at hpr
  rcases List.mem_append.mp hpr with h1 | h2
  · have := h pr h1
    simp only [Page.send]
    omega
  · simp at h2
    simp [Page.send, h2]

/-- Unfolding `sendAll` on a first call. -/
theorem sendAll_cons (s : Page.ConnState) (c : Nat) (cs : List Nat) :
    Page.sendAll s (c :: cs)
      = ((Page.sendAll (Page.send s c).1 cs).1,
         (c, (Page.send s c).2) :: (Page.sendAll (Page.send s c).1 cs).2) := by
  cases hp : Page.sendAll (Page.send s c).1 cs with
  | mk a b =>
    simp only [Page.send] at hp
    simp [Page.sendAll, Page.send, hp]

/-- Characterization of a burst of `send` calls: the pending map gains one
entry per call, keyed by the consecutively allocated ids and holding the
per-call callbacks in issue order. -/
theorem sendAll_spec : ∀ (cs : List Nat) (s : Page.ConnState), Page.KeyBound s →
    (Page.sendAll s cs).1.packetCallbacks
        = s.packetCallbacks ++ ((Page.sendAll s cs).2.map fun pr => (pr.2, pr.1))
      ∧ (Page.sendAll s cs).2.map Prod.snd = List.range' (s.packetCounter + 1) cs.length
      ∧ (Page.sendAll s cs).2.map Prod.fst = cs := by
  intro cs
  induction cs with
  | nil =>
    intro s h
    simp [Page.sendAll, List.range']
  | cons c cs ih =>
    intro s h
    obtain ⟨ih1, ih2, ih3⟩ := ih (Page.send s c).1 (send_keybound h c)
    rw [sendAll_cons]
    refine ⟨?_, ?_, ?_⟩
    · simp only [ih1, send_pending h, List.map_cons]
      simp [Page.send]
    · simp only [List.map_cons, ih2, List.length_cons]
      rw [List.range'_succ]
      simp [Page.send]
    · simp only [List.map_cons, ih3]

/-- C1: issue any burst of `send` calls on one connection from its initial
state; then deliver one response frame per allocated request id, in any
arrival order.  Every call's callback is resolved or rejected exactly once,
and with exactly the `result`/`error` payload of the response frame whose
`id` equals the id allocated for that call. -/
theorem send_response_correlation
    (cs : List Nat) (hcs : cs.Nodup) (rs : List (Nat × Page.Payload))
    (hperm : (rs.map Prod.fst).Perm
      ((Page.sendAll Page.ConnState.init cs).2.map Prod.snd))
    (cid i : Nat) (hpair : (cid, i) ∈ (Page.sendAll Page.ConnState.init cs).2)
    (p : Page.Payload) (hresp : (i, p) ∈ rs) :
    (Page.outcomes
        (Page.processAll (Page.sendAll Page.ConnState.init cs).1
          (rs.map Page.respInbound)).2).filter (fun r => r.1 == cid)
      = [(cid, p)] := by
  have hkb : Page.KeyBound Page.ConnState.init := by
    intro pr hpr
    simp [Page.ConnState.init] at hpr
  obtain ⟨hpend, hids, hcids⟩ := sendAll_spec cs Page.ConnState.init hkb
  have hpend' : (Page.sendAll Page.ConnState.init cs).1.packetCallbacks
      = (Page.sendAll Page.ConnState.init cs).2.map (fun pr => (pr.2, pr.1)) := by
    rw [hpend]
    simp [Page.ConnState.init]
  have hswapfst : ((Page.sendAll Page.ConnState.init cs).2.map
      (fun pr : Nat × Nat => (pr.2, pr.1))).map Prod.fst
      = (Page.sendAll Page.ConnState.init cs).2.map Prod.snd := by
    rw [List.map_map]; rfl
  have hswapsnd : ((Page.sendAll Page.ConnState.init cs).2.map
      (fun pr : Nat × Nat => (pr.2, pr.1))).map Prod.snd
      = (Page.sendAll Page.ConnState.init cs).2.map Prod.fst := by
    rw [List.map_map]; rfl
  have hrangenodup : ((Page.sendAll Page.ConnState.init cs).2.map Prod.snd).Nodup := by
    rw [hids]
    exact List.nodup_range' _ _
  have hkeys : ((Page.sendAll Page.ConnState.init cs).1.packetCallbacks.map
      Prod.fst).Nodup := by
    rw [hpend', hswapfst]
    exact hrangenodup
  have hvals : ((Page.sendAll Page.ConnState.init cs).1.packetCallbacks.map
      Prod.snd).Nodup := by
    rw [hpend', hswapsnd, hcids]
    exact hcs
  have hin : ∀ r ∈ rs,
      (mfind? (Page.sendAll Page.ConnState.init cs).1.packetCallbacks r.1).isSome
        = true := by
    intro r hr
    have hr1 : r.1 ∈ (Page.sendAll Page.ConnState.init cs).2.map Prod.snd :=
      hperm.subset (List.mem_map_of_mem Prod.fst hr)
    obtain ⟨pr, hprmem, hpr1⟩ := List.mem_map.mp hr1
    have hmm : (r.1, pr.1) ∈ (Page.sendAll Page.ConnState.init cs).1.packetCallbacks := by
      rw [hpend']
      exact List.mem_map.mpr ⟨pr, hprmem, by rw [hpr1]⟩
    exact mem_mfind?_isSome hmm
  have hidsnodup : (rs.map Prod.fst).Nodup :=
    (List.Perm.nodup_iff hperm).mpr hrangenodup
  have hlook : mfind? (Page.sendAll Page.ConnState.init cs).1.packetCallbacks i
      = some cid := by
    refine mfind?_of_mem_nodup hkeys ?_
    rw [hpend']
    exact List.mem_map_of_mem (fun pr : Nat × Nat => (pr.2, pr.1)) hpair
  exact correlation_aux rs (Page.sendAll Page.ConnState.init cs).1
    hkeys hvals hin hidsnodup i cid p hlook hresp

/-- C1 witness: two concurrent sends (callbacks 10 and 20, allocated ids 1
and 2); responses arrive in reverse order (id 2 resolves, then id 1
rejects); callback 10 receives exactly the rejection of the frame with
id 1. -/
theorem send_response_correlation_witness :
    [10, 20].Nodup
    ∧ ([(2, Page.Payload.ok (some (Json.num 5))), (1, Page.Payload.err ⟨-1, "bad"⟩)].map
        Prod.fst).Perm
      ((Page.sendAll Page.ConnState.init [10, 20]).2.map Prod.snd)
    ∧ (10, 1) ∈ (Page.sendAll Page.ConnState.init [10, 20]).2
    ∧ (Page.outcomes
        (Page.processAll (Page.sendAll Page.ConnState.init [10, 20]).1
          ([(2, Page.Payload.ok (some (Json.num 5))),
            (1, Page.Payload.err ⟨-1, "bad"⟩)].map Page.respInbound)).2).filter
        (fun r => r.1 == 10)
      = [(10, Page.Payload.err ⟨-1, "bad"⟩)] := by
  refine ⟨by decide, by decide, by decide, ?_⟩
  exact send_response_correlation [10, 20] (by decide)
    [(2, Page.Payload.ok (some (Json.num 5))), (1, Page.Payload.err ⟨-1, "bad"⟩)]
    (by decide) 10 1 (by decide) (Page.Payload.err ⟨-1, "bad"⟩)
    (List.Mem.tail _ (List.Mem.head _))
